import Mathlib

/-!
Verification of the collection-dedup-categorization pipeline of the
Drone_news repository.  The definitions below are shallow embeddings of
the corresponding Python functions:

* `remove_duplicates`   — `DroneIntelligenceScraper.remove_duplicates`
  (src/drone_scraper.py, lines 336-371)
* `assignCategory`, `bucketize`, `sortCategoriesStep`,
  `categorize_articles` — `categorize_articles`
  (src/generate_newsletter.py, lines 35-119)
* `acceptTitle`, `normalizeLink` — the title filter and link
  normalization inside `search_single_query`
  (src/drone_scraper.py, lines 220-247)
* `process_image_url`   — `process_image_url`
  (src/drone_scraper.py, lines 52-64)

Python strings are modelled as Lean `String` viewed as its list of
characters; Python `str.lower()` / `str.strip()` / `str.split()` are
modelled character-by-character below.  Machine floats in the dedup
threshold comparison are modelled by exact rationals, matching the
spec's arithmetic `|T ∩ S| / |T ∪ S|`.
-/

/-- Article record as produced by `search_single_query`: the keys of the
Python dict `{'title', 'link', 'source', 'published', 'category',
'image', 'scraped_at'}`. -/
structure Article where
  title : String
  link : String
  source : String
  published : String
  category : String
  image : Option String
  scraped_at : String
deriving DecidableEq, Repr

/-- Python `str.lower()` (ASCII case folding, as used on the ASCII
keyword/title data of this program). -/
def lowerStr (s : String) : String := String.mk (s.data.map Char.toLower)

/-- Drop whitespace characters from both ends of a character list. -/
def trimChars (l : List Char) : List Char :=
  ((l.dropWhile Char.isWhitespace).reverse.dropWhile Char.isWhitespace).reverse

/-- Python `str.strip()`. -/
def trimStr (s : String) : String := String.mk (trimChars s.data)

/-- Helper for Python `str.split()`: split on whitespace, dropping empty
pieces; `cur` holds the reversed characters of the word being read. -/
def wordsAux : List Char → List Char → List String
  | [], cur => if cur.isEmpty then [] else [String.mk cur.reverse]
  | c :: cs, cur =>
    if c.isWhitespace then
      if cur.isEmpty then wordsAux cs [] else String.mk cur.reverse :: wordsAux cs []
    else wordsAux cs (c :: cur)

/-- Python `set(s.split())`: the set of whitespace-separated words. -/
def wordsOf (s : String) : Finset String := (wordsAux s.data []).toFinset

/-- Python `sub in s` (substring test), via character lists. -/
def subOccurs (needle : List Char) : List Char → Bool
  | [] => needle.isEmpty
  | c :: cs => needle.isPrefixOf (c :: cs) || subOccurs needle cs

/-- `strContains hay nd` models Python `nd in hay`. -/
def strContains (hay nd : String) : Bool := subOccurs nd.data hay.data

/-- `strStartsWith s p` models Python `s.startswith(p)`. -/
def strStartsWith (s p : String) : Bool := p.data.isPrefixOf s.data

/-- Python `s[n:]` for strings. -/
def strDrop (s : String) (n : Nat) : String := String.mk (s.data.drop n)

/-- Normalized title: `article['title'].lower().strip()` in
`remove_duplicates`. -/
def normTitle (a : Article) : String := trimStr (lowerStr a.title)

/-- Jaccard similarity as computed in `remove_duplicates`:
`intersection / union if union > 0 else 0`. -/
def similarity (T S : Finset String) : ℚ :=
  if 0 < (T ∪ S).card then ((T ∩ S).card : ℚ) / ((T ∪ S).card : ℚ) else 0

/-- The duplicate test of `remove_duplicates`: some already-seen title
has non-empty word set, the incoming word set `T` is non-empty, and the
Jaccard similarity exceeds the 0.7 threshold strictly. -/
def isDup (T : Finset String) (seen : List String) : Bool :=
  seen.any fun s =>
    decide (0 < T.card) && decide (0 < (wordsOf s).card) &&
      decide ((7 : ℚ)/10 < similarity T (wordsOf s))

/-- Main loop of `remove_duplicates`: walk the articles in order,
keeping a list of the normalized titles accepted so far. -/
def remove_duplicatesGo : List Article → List String → List Article
  | [], _ => []
  | a :: rest, seen =>
    if isDup (wordsOf (normTitle a)) seen then remove_duplicatesGo rest seen
    else a :: remove_duplicatesGo rest (seen ++ [normTitle a])

/-- `DroneIntelligenceScraper.remove_duplicates` (src/drone_scraper.py
lines 336-371). -/
def remove_duplicates (articles : List Article) : List Article :=
  remove_duplicatesGo articles []

/-- Deduplication restated from the specification's wording (spec §4.2):
keep an ordered list of accepted Articles; an incoming Article is
discarded exactly when some previously accepted Article's title word set
is non-empty, the incoming title's word set is non-empty, and their
Jaccard similarity strictly exceeds 0.7.  Used to check the
implementation `remove_duplicates` against the spec. -/
def dedupSpecGo : List Article → List Article → List Article
  | [], _ => []
  | a :: rest, acc =>
    if acc.any (fun b =>
        decide (0 < (wordsOf (normTitle a)).card) &&
          decide (0 < (wordsOf (normTitle b)).card) &&
          decide ((7 : ℚ)/10 <
            similarity (wordsOf (normTitle a)) (wordsOf (normTitle b))))
    then dedupSpecGo rest acc
    else a :: dedupSpecGo rest (acc ++ [a])

/-- Top-level spec-side deduplicator. -/
def dedupSpec (articles : List Article) : List Article := dedupSpecGo articles []

/-- Navigation-chrome titles skipped by `search_single_query`
(src/drone_scraper.py line 230). -/
def navTerms : List String :=
  ["home", "for you", "following", "world", "local", "business",
   "technology", "entertainment", "sports", "science", "health"]

/-- Title filter of `search_single_query` (src/drone_scraper.py lines
220-232).  The raw title is extracted with `get_text(strip=True)`, hence
the leading `trimStr`; the record is kept only when the title is
non-empty, at least 15 characters long, and not a navigation term. -/
def acceptTitle (raw : String) : Bool :=
  let title := trimStr raw
  if title = "" then false
  else if title.data.length < 15 then false
  else if trimStr (lowerStr title) ∈ navTerms then false
  else true

/-- Link extraction of `search_single_query` (src/drone_scraper.py lines
234-247): `href = None`/empty keeps the search-results URL fallback;
`./…` and `/…` are joined to the Google News origin; anything else is
taken verbatim. -/
def normalizeLink (searchUrl : String) (href : Option String) : String :=
  match href with
  | none => searchUrl
  | some h =>
    if h = "" then searchUrl
    else if strStartsWith h "./" then "https://news.google.com" ++ strDrop h 1
    else if strStartsWith h "/" then "https://news.google.com" ++ h
    else h

/-- `process_image_url` (src/drone_scraper.py lines 52-64). -/
def process_image_url (imgSrc : Option String) : Option String :=
  match imgSrc with
  | none => none
  | some s =>
    if s = "" then none
    else if strStartsWith s "data:" then none
    else if strStartsWith s "//" then some ("https:" ++ s)
    else if strStartsWith s "/" then some ("https://news.google.com" ++ s)
    else if strStartsWith s "http" then some s
    else some ("https://news.google.com/" ++ String.mk (s.data.dropWhile (· = '/')))

/-- Ordered keyword rules of `categorize_articles`
(src/generate_newsletter.py lines 40-70). -/
def category_mappings : List (List String × String) :=
  [ (["military", "warfare", "strike", "combat", "defense", "weapon", "armed"],
      "🎯 Military & Defense"),
    (["autonomous", "ai", "artificial intelligence", "swarm", "ml", "machine learning"],
      "🤖 Autonomous Systems"),
    (["china", "chinese", "russia", "russian", "iran", "iranian", "north korea", "dprk"],
      "🌍 Geopolitical Intelligence"),
    (["counter", "anti-drone", "defense", "c-uas", "jammer"],
      "🛡️ Counter-Drone Technology"),
    (["delivery", "commercial", "civilian", "agriculture", "agri", "farm"],
      "📦 Commercial & Civilian"),
    (["surveillance", "security", "monitoring", "reconnaissance", "isr"],
      "👁️ Surveillance & Security"),
    (["regulation", "faa", "regulatory", "legal", "law", "policy"],
      "📋 Regulation & Policy"),
    (["fpv", "first person"], "🎮 FPV Systems"),
    (["vtol", "vertical takeoff"], "🚁 VTOL Aircraft"),
    (["quadcopter", "multirotor"], "🔄 Quadcopters"),
    (["stealth", "invisible"], "👻 Stealth Technology"),
    (["electronic", "cyber", "5g", "communication"], "📡 Electronic Systems"),
    (["janes", "defense news", "warzone", "breaking defense"], "📰 Defense Publications"),
    (["reuters", "bloomberg", "cnn", "bbc", "wsj", "financial times"], "📺 Major News"),
    (["wired", "techcrunch", "ars technica"], "💻 Tech Publications"),
    (["israel", "turkey", "ukraine", "usa", "america"], "🌐 Regional Intelligence"),
    (["uav", "uas"], "🛩️ UAV/UAS Systems"),
    (["drone"], "🚁 General Drones") ]

/-- The combined text `f"{title} {category_name} {source}"` built from
the lower-cased fields (src/generate_newsletter.py lines 73-78). -/
def combinedOf (a : Article) : String :=
  lowerStr a.title ++ " " ++ lowerStr a.category ++ " " ++ lowerStr a.source

/-- First-match category assignment of `categorize_articles`
(src/generate_newsletter.py lines 81-89). -/
def assignCategory (a : Article) : String :=
  match category_mappings.find?
      (fun rule => rule.1.any fun kw => strContains (combinedOf a) kw) with
  | some rule => rule.2
  | none => "📄 General Intelligence"

/-- Appending an article to its category bucket, modelling
`categories[assigned_category].append(article)` on an insertion-ordered
dict (src/generate_newsletter.py lines 92-94). -/
def addToBucket : List (String × List Article) → String → Article →
    List (String × List Article)
  | [], c, a => [(c, [a])]
  | (k, v) :: rest, c, a =>
    if k = c then (k, v ++ [a]) :: rest else (k, v) :: addToBucket rest c a

/-- The bucket-building loop of `categorize_articles`. -/
def bucketizeGo : List Article → List (String × List Article) →
    List (String × List Article)
  | [], m => m
  | a :: rest, m => bucketizeGo rest (addToBucket m (assignCategory a) a)

/-- The `categories` dict after the first loop of `categorize_articles`. -/
def bucketize (articles : List Article) : List (String × List Article) :=
  bucketizeGo articles []

/-- `priority_order` (src/generate_newsletter.py lines 97-105). -/
def priority_order : List String :=
  ["🎯 Military & Defense", "🤖 Autonomous Systems",
   "🌍 Geopolitical Intelligence", "🛡️ Counter-Drone Technology",
   "📦 Commercial & Civilian", "👁️ Surveillance & Security",
   "📋 Regulation & Policy"]

/-- Stable descending insertion by article count: the incoming entry is
placed before the first entry with a count less than or equal to its
own, hence after every earlier entry with a strictly greater count and
before every later-seen entry of equal count.  This realises Python's
stable `sorted(..., key=len, reverse=True)`. -/
def insertByCount (x : String × List Article) :
    List (String × List Article) → List (String × List Article)
  | [] => [x]
  | y :: ys =>
    if y.2.length ≤ x.2.length then x :: y :: ys else y :: insertByCount x ys

/-- Stable sort of the non-priority categories by descending article
count (src/generate_newsletter.py line 116). -/
def sortRemaining : List (String × List Article) → List (String × List Article)
  | [] => []
  | x :: xs => insertByCount x (sortRemaining xs)

/-- Priority segment of the ranker: priority categories present in the
map, in priority-list order (src/generate_newsletter.py lines 110-112). -/
def prioritySeg (cats : List (String × List Article)) :
    List (String × List Article) :=
  priority_order.filterMap fun c => cats.find? fun kv => decide (kv.1 = c)

/-- The `remaining` dict (src/generate_newsletter.py line 115). -/
def remainingSeg (cats : List (String × List Article)) :
    List (String × List Article) :=
  cats.filter fun kv => !(decide (kv.1 ∈ priority_order))

/-- Category ranking step of `categorize_articles`
(src/generate_newsletter.py lines 96-119). -/
def sortCategoriesStep (cats : List (String × List Article)) :
    List (String × List Article) :=
  prioritySeg cats ++ sortRemaining (remainingSeg cats)

/-- `categorize_articles` (src/generate_newsletter.py lines 35-119):
bucket by assigned category, then rank the categories. -/
def categorize_articles (articles : List Article) :
    List (String × List Article) :=
  sortCategoriesStep (bucketize articles)

/-! Lemmas about the deduplicator. -/

lemma any_map_general {α β : Type} (f : α → β) (p : β → Bool) (l : List α) :
    (l.map f).any p = l.any fun x => p (f x) := by
  induction l with
  | nil => rfl
  | cons x xs ih => simp [List.any_cons, ih]

lemma similarity_comm (T S : Finset String) : similarity T S = similarity S T := by
  rw [similarity, similarity, Finset.union_comm, Finset.inter_comm]

lemma similarity_pos_cards {T S : Finset String}
    (h : (7 : ℚ)/10 < similarity T S) : 0 < T.card ∧ 0 < S.card := by
  by_cases hu : 0 < (T ∪ S).card
  · rw [similarity, if_pos hu] at h
    have hi : 0 < ((T ∩ S).card : ℚ) := by
      by_contra hneg
      push_neg at hneg
      have hz : ((T ∩ S).card : ℚ) = 0 := le_antisymm hneg (by positivity)
      rw [hz, zero_div] at h
      norm_num at h
    have hi' : 0 < (T ∩ S).card := by exact_mod_cast hi
    obtain ⟨x, hx⟩ := Finset.card_pos.mp hi'
    exact ⟨Finset.card_pos.mpr ⟨x, (Finset.mem_inter.mp hx).1⟩,
           Finset.card_pos.mpr ⟨x, (Finset.mem_inter.mp hx).2⟩⟩
  · rw [similarity, if_neg hu] at h
    norm_num at h

lemma isDup_false_of_append {T : Finset String} {s₁ s₂ : List String}
    (h : isDup T (s₁ ++ s₂) = false) : isDup T s₁ = false := by
  simp only [isDup, List.any_append, Bool.or_eq_false_iff] at h
  simp only [isDup]
  exact h.1

lemma isDup_false_of_mem_go (l : List Article) :
    ∀ (seen : List String) (a : Article),
      a ∈ remove_duplicatesGo l seen →
      isDup (wordsOf (normTitle a)) seen = false := by
  induction l with
  | nil => intro seen a h; simp [remove_duplicatesGo] at h
  | cons b rest ih =>
    intro seen a h
    rw [remove_duplicatesGo] at h
    by_cases hb : isDup (wordsOf (normTitle b)) seen = true
    · rw [if_pos hb] at h
      exact ih seen a h
    · have hb' : isDup (wordsOf (normTitle b)) seen = false := by
        simpa using hb
      rw [if_neg hb] at h
      rcases List.mem_cons.mp h with rfl | h2
      · exact hb'
      · exact isDup_false_of_append (ih _ a h2)

lemma removeDupGo_sublist (l : List Article) :
    ∀ seen, (remove_duplicatesGo l seen).Sublist l := by
  induction l with
  | nil => intro seen; simp [remove_duplicatesGo]
  | cons b rest ih =>
    intro seen
    rw [remove_duplicatesGo]
    by_cases hb : isDup (wordsOf (normTitle b)) seen = true
    · rw [if_pos hb]
      exact List.Sublist.cons b (ih seen)
    · rw [if_neg hb]
      exact List.Sublist.cons₂ b (ih _)

lemma pairwise_removeDupGo (l : List Article) :
    ∀ seen, (remove_duplicatesGo l seen).Pairwise
      (fun a b => ¬ ((7 : ℚ)/10 <
        similarity (wordsOf (normTitle a)) (wordsOf (normTitle b)))) := by
  induction l with
  | nil => intro seen; simp [remove_duplicatesGo]
  | cons b rest ih =>
    intro seen
    rw [remove_duplicatesGo]
    by_cases hb : isDup (wordsOf (normTitle b)) seen = true
    · rw [if_pos hb]; exact ih seen
    · rw [if_neg hb]
      refine List.pairwise_cons.mpr ⟨?_, ih _⟩
      intro a ha hsim
      have hdup := isDup_false_of_mem_go rest _ a ha
      have hcards := similarity_pos_cards hsim
      rw [isDup, List.any_eq_false] at hdup
      have hmem : normTitle b ∈ seen ++ [normTitle b] := by simp
      have hcl := hdup _ hmem
      simp only [Bool.and_eq_true, decide_eq_true_eq] at hcl
      exact hcl ⟨⟨hcards.2, hcards.1⟩, by rwa [similarity_comm] at hsim⟩

lemma removeDupGo_eq_specGo (l : List Article) :
    ∀ acc : List Article,
      remove_duplicatesGo l (acc.map normTitle) = dedupSpecGo l acc := by
  induction l with
  | nil => intro acc; rfl
  | cons a rest ih =>
    intro acc
    rw [remove_duplicatesGo, dedupSpecGo]
    have hcond : isDup (wordsOf (normTitle a)) (acc.map normTitle)
        = acc.any (fun b =>
            decide (0 < (wordsOf (normTitle a)).card) &&
              decide (0 < (wordsOf (normTitle b)).card) &&
              decide ((7 : ℚ)/10 <
                similarity (wordsOf (normTitle a)) (wordsOf (normTitle b)))) := by
      simp only [isDup, any_map_general]
    rw [hcond]
    by_cases hc : (acc.any (fun b =>
        decide (0 < (wordsOf (normTitle a)).card) &&
          decide (0 < (wordsOf (normTitle b)).card) &&
          decide ((7 : ℚ)/10 <
            similarity (wordsOf (normTitle a)) (wordsOf (normTitle b))))) = true
    · rw [if_pos hc, if_pos hc]
      exact ih acc
    · rw [if_neg hc, if_neg hc]
      have htl := ih (acc ++ [a])
      simp only [List.map_append, List.map_cons, List.map_nil] at htl
      rw [htl]

/-- Concrete article whose title has ten distinct words. -/
def dedupArtA : Article :=
  ⟨"alpha bravo charlie delta echo foxtrot golf hotel india xray",
    "", "", "", "", none, ""⟩

/-- Concrete article whose title keeps exactly seven of the ten words of
`dedupArtA`, giving Jaccard similarity exactly 7/10. -/
def dedupArtB : Article :=
  ⟨"alpha bravo charlie delta echo foxtrot golf", "", "", "", "", none, ""⟩

/-- C1: the Deduplicator accepts an incoming article exactly when no
previously accepted article's lower-cased, trimmed title word set has
Jaccard similarity strictly greater than 0.7 with the incoming title's
word set (both sets non-empty); the earlier-seen article survives, and a
pair at similarity exactly 7/10 is kept in full. -/
theorem C1_dedup_follows_spec :
    (∀ articles : List Article, remove_duplicates articles = dedupSpec articles) ∧
    remove_duplicates [dedupArtA, dedupArtB] = [dedupArtA, dedupArtB] ∧
    similarity (wordsOf (normTitle dedupArtA)) (wordsOf (normTitle dedupArtB)) = 7/10 := by
  have hsimAB : similarity (wordsOf (normTitle dedupArtA)) (wordsOf (normTitle dedupArtB))
      = 7/10 := by
    have h1 : (wordsOf (normTitle dedupArtA) ∩ wordsOf (normTitle dedupArtB)).card = 7 := by
      decide
    have h2 : (wordsOf (normTitle dedupArtA) ∪ wordsOf (normTitle dedupArtB)).card = 10 := by
      decide
    rw [similarity, if_pos (by rw [h2]; norm_num), h1, h2]
    norm_num
  refine ⟨?_, ?_, hsimAB⟩
  · intro articles
    have h := removeDupGo_eq_specGo articles []
    simpa [remove_duplicates, dedupSpec] using h
  · have hA : isDup (wordsOf (normTitle dedupArtA)) [] = false := rfl
    have hsimBA : similarity (wordsOf (normTitle dedupArtB)) (wordsOf (normTitle dedupArtA))
        = 7/10 := by rw [similarity_comm]; exact hsimAB
    have hlt : ¬ ((7 : ℚ)/10 < 7/10) := by norm_num
    have hB : isDup (wordsOf (normTitle dedupArtB)) [normTitle dedupArtA] = false := by
      simp only [isDup, List.any_cons, List.any_nil, Bool.or_false]
      rw [hsimBA, decide_eq_false hlt]
      simp
    show remove_duplicatesGo [dedupArtA, dedupArtB] [] = [dedupArtA, dedupArtB]
    rw [remove_duplicatesGo, if_neg (by simp [hA])]
    simp only [List.nil_append]
    rw [remove_duplicatesGo, if_neg (by simp [hB])]
    rfl

/-- C5: no two articles surviving the Deduplicator have titles whose
word-set Jaccard similarity is strictly greater than 0.7. -/
theorem C5_survivors_pairwise_dissimilar :
    ∀ articles : List Article,
      (remove_duplicates articles).Pairwise
        (fun a b => ¬ ((7 : ℚ)/10 <
          similarity (wordsOf (normTitle a)) (wordsOf (normTitle b)))) := by
  intro articles
  exact pairwise_removeDupGo articles []

/-- C9: on empty input the pipeline yields a well-formed empty output:
deduplication returns the empty list and categorization the empty
category map. -/
theorem C9_empty_input_ok :
    remove_duplicates ([] : List Article) = [] ∧
    categorize_articles ([] : List Article) = [] := by
  exact ⟨rfl, rfl⟩

/-- C10: the Deduplicator's output is an order-preserving subsequence of
its input — every survivor is the identical record, relative order is
kept, and the output is never longer than the input. -/
theorem C10_dedup_is_sublist :
    ∀ articles : List Article,
      (remove_duplicates articles).Sublist articles ∧
      (remove_duplicates articles).length ≤ articles.length := by
  intro articles
  exact ⟨removeDupGo_sublist articles [],
    (removeDupGo_sublist articles []).length_le⟩

/-! Normalizer: title filter and URL handling. -/

/-- C4: a raw candidate title is rejected exactly when its trimmed form
is shorter than 15 characters or its lower-cased trimmed form equals a
navigation-chrome term; in particular "Home" and "World" are rejected
while "Turkish drone exports surge amid regional tensions" is accepted. -/
theorem C4_title_rejection :
    (∀ raw : String, acceptTitle raw = false ↔
      ((trimStr raw).data.length < 15 ∨
        trimStr (lowerStr (trimStr raw)) ∈ navTerms)) ∧
    acceptTitle "Home" = false ∧
    acceptTitle "World" = false ∧
    acceptTitle "Turkish drone exports surge amid regional tensions" = true := by
  refine ⟨?_, by decide, by decide, by decide⟩
  intro raw
  simp only [acceptTitle]
  split_ifs with h0 h1 h2
  · exact iff_of_true rfl (Or.inl (by rw [h0]; decide))
  · exact iff_of_true rfl (Or.inl h1)
  · exact iff_of_true rfl (Or.inr h2)
  · exact iff_of_false (by simp) (not_or.mpr ⟨h1, h2⟩)

/-- C7 counterexample: a protocol-relative href is joined to the Google
News origin (not merely completed with "https:"), and an href that is
neither relative nor absolute passes through verbatim instead of being
replaced by the search-results fallback URL. -/
theorem C7_counterexample :
    normalizeLink "https://news.google.com/search?q=drone&hl=en" (some "//example.com/a")
        = "https://news.google.com//example.com/a" ∧
    normalizeLink "https://news.google.com/search?q=drone&hl=en" (some "//example.com/a")
        ≠ "https:" ++ "//example.com/a" ∧
    normalizeLink "https://news.google.com/search?q=drone&hl=en" (some "not a url")
        = "not a url" ∧
    normalizeLink "https://news.google.com/search?q=drone&hl=en" (some "not a url")
        ≠ "https://news.google.com/search?q=drone&hl=en" := by
  exact ⟨by decide, by decide, by decide, by decide⟩

/-- C7 amended: the search-results URL is used only when no href is
present (or it is empty); an href starting with "./" is joined to the
origin after dropping the dot; any other href starting with "/"
(protocol-relative "//" included) is prefixed with the origin
"https://news.google.com"; every remaining href — absolute URLs and
unrecognized values alike — passes through unchanged. -/
theorem C7_link_normalization :
    (∀ u : String, normalizeLink u none = u) ∧
    (∀ u : String, normalizeLink u (some "") = u) ∧
    (∀ u h : String, h ≠ "" → strStartsWith h "./" = true →
      normalizeLink u (some h) = "https://news.google.com" ++ strDrop h 1) ∧
    (∀ u h : String, h ≠ "" → strStartsWith h "./" = false →
      strStartsWith h "/" = true →
      normalizeLink u (some h) = "https://news.google.com" ++ h) ∧
    (∀ u h : String, h ≠ "" → strStartsWith h "./" = false →
      strStartsWith h "/" = false → normalizeLink u (some h) = h) := by
  refine ⟨fun u => rfl, ?_, ?_, ?_, ?_⟩
  · intro u
    simp [normalizeLink]
  · intro u h hne hdot
    simp [normalizeLink, hne, hdot]
  · intro u h hne hdot hslash
    simp [normalizeLink, hne, hdot, hslash]
  · intro u h hne hdot hslash
    simp [normalizeLink, hne, hdot, hslash]

/-- Witness for `C7_link_normalization` at concrete hrefs, including the
empty href. -/
theorem C7_link_normalization_witness :
    normalizeLink "u" none = "u" ∧
    normalizeLink "u" (some "") = "u" ∧
    normalizeLink "u" (some "./articles/x")
      = "https://news.google.com" ++ strDrop "./articles/x" 1 ∧
    normalizeLink "u" (some "//example.com/a") = "https://news.google.com" ++ "//example.com/a" ∧
    normalizeLink "u" (some "https://e.com/x") = "https://e.com/x" := by
  exact ⟨C7_link_normalization.1 "u",
    C7_link_normalization.2.1 "u",
    C7_link_normalization.2.2.1 "u" "./articles/x" (by decide) (by decide),
    C7_link_normalization.2.2.2.1 "u" "//example.com/a" (by decide) (by decide) (by decide),
    C7_link_normalization.2.2.2.2 "u" "https://e.com/x" (by decide) (by decide) (by decide)⟩

/-- C8 counterexample: an image source that is neither scheme-relative,
root-relative, absolute, a data URI, nor empty is not treated as
unresolved — it is joined to the origin with a slash. -/
theorem C8_counterexample :
    process_image_url (some "images/pic.png")
        = some "https://news.google.com/images/pic.png" ∧
    process_image_url (some "images/pic.png") ≠ none ∧
    process_image_url (some "images/pic.png") ≠ some "images/pic.png" := by
  exact ⟨by decide, by decide, by decide⟩

/-- C8 amended: a missing or empty image source and any data: URI yield
no image; "//…" is completed with "https:"; "/…" is prefixed with the
origin; an "http…" value passes through; and every other value is joined
to "https://news.google.com/" after stripping leading slashes. -/
theorem C8_image_normalization :
    process_image_url none = none ∧
    process_image_url (some "") = none ∧
    (∀ s : String, s ≠ "" → strStartsWith s "data:" = true →
      process_image_url (some s) = none) ∧
    (∀ s : String, s ≠ "" → strStartsWith s "data:" = false →
      strStartsWith s "//" = true →
      process_image_url (some s) = some ("https:" ++ s)) ∧
    (∀ s : String, s ≠ "" → strStartsWith s "data:" = false →
      strStartsWith s "//" = false → strStartsWith s "/" = true →
      process_image_url (some s) = some ("https://news.google.com" ++ s)) ∧
    (∀ s : String, s ≠ "" → strStartsWith s "data:" = false →
      strStartsWith s "//" = false → strStartsWith s "/" = false →
      strStartsWith s "http" = true → process_image_url (some s) = some s) ∧
    (∀ s : String, s ≠ "" → strStartsWith s "data:" = false →
      strStartsWith s "//" = false → strStartsWith s "/" = false →
      strStartsWith s "http" = false →
      process_image_url (some s)
        = some ("https://news.google.com/" ++ String.mk (s.data.dropWhile (· = '/')))) := by
  refine ⟨rfl, rfl, ?_, ?_, ?_, ?_, ?_⟩
  · intro s hne hdata
    simp [process_image_url, hne, hdata]
  · intro s hne hdata hss
    simp [process_image_url, hne, hdata, hss]
  · intro s hne hdata hss hs
    simp [process_image_url, hne, hdata, hss, hs]
  · intro s hne hdata hss hs hh
    simp [process_image_url, hne, hdata, hss, hs, hh]
  · intro s hne hdata hss hs hh
    simp [process_image_url, hne, hdata, hss, hs, hh]

/-- Witness for `C8_image_normalization` at concrete image sources. -/
theorem C8_image_normalization_witness :
    process_image_url (some "data:image/png;base64,AAAA") = none ∧
    process_image_url (some "//img.example.com/x.png")
      = some ("https:" ++ "//img.example.com/x.png") ∧
    process_image_url (some "/img/x.png") = some ("https://news.google.com" ++ "/img/x.png") ∧
    process_image_url (some "http://e.com/i.png") = some "http://e.com/i.png" ∧
    process_image_url (some "images/pic2.png")
      = some ("https://news.google.com/" ++ String.mk ("images/pic2.png".data.dropWhile (· = '/'))) := by
  exact ⟨C8_image_normalization.2.2.1 "data:image/png;base64,AAAA" (by decide) (by decide),
    C8_image_normalization.2.2.2.1 "//img.example.com/x.png" (by decide) (by decide) (by decide),
    C8_image_normalization.2.2.2.2.1 "/img/x.png" (by decide) (by decide) (by decide) (by decide),
    C8_image_normalization.2.2.2.2.2.1 "http://e.com/i.png"
      (by decide) (by decide) (by decide) (by decide) (by decide),
    C8_image_normalization.2.2.2.2.2.2 "images/pic2.png"
      (by decide) (by decide) (by decide) (by decide) (by decide)⟩

/-! Lemmas about the categorizer and ranker. -/

lemma find?_at_index {α : Type} (p : α → Bool) :
    ∀ (l : List α) (i : Nat) (hi : i < l.length),
      p (l.get ⟨i, hi⟩) = true →
      (∀ (j : Nat) (hj : j < i), p (l.get ⟨j, Nat.lt_trans hj hi⟩) = false) →
      l.find? p = some (l.get ⟨i, hi⟩) := by
  intro l
  induction l with
  | nil => intro i hi; simp at hi
  | cons a t ih =>
    intro i hi hp hb
    cases i with
    | zero =>
      exact List.find?_cons_of_pos _ hp
    | succ n =>
      have ha : p a = false := by
        have h0 := hb 0 (Nat.succ_pos n)
        simpa using h0
      rw [List.find?_cons_of_neg _ (by simp [ha])]
      have hi' : n < t.length := Nat.lt_of_succ_lt_succ hi
      have hrec := ih n hi' (by simpa using hp) (fun j hj => by
        have hj' := hb (j + 1) (Nat.succ_lt_succ hj)
        simpa using hj')
      simpa using hrec

lemma addToBucket_mem_self (m : List (String × List Article)) (c : String) (a : Article) :
    ∃ kv, kv ∈ addToBucket m c a ∧ kv.1 = c ∧ a ∈ kv.2 := by
  induction m with
  | nil => exact ⟨(c, [a]), by simp [addToBucket], rfl, by simp⟩
  | cons kv0 rest ih =>
    obtain ⟨k, v⟩ := kv0
    by_cases hk : k = c
    · exact ⟨(k, v ++ [a]), by simp [addToBucket, hk], hk, by simp⟩
    · obtain ⟨kv, hmem, hfst, hsnd⟩ := ih
      exact ⟨kv, by simp [addToBucket, hk, hmem], hfst, hsnd⟩

lemma addToBucket_preserves (m : List (String × List Article)) (c : String) (a : Article)
    {kv : String × List Article} (h : kv ∈ m) :
    ∃ kv', kv' ∈ addToBucket m c a ∧ kv'.1 = kv.1 ∧ ∀ x ∈ kv.2, x ∈ kv'.2 := by
  induction m with
  | nil => simp at h
  | cons kv0 rest ih =>
    obtain ⟨k, v⟩ := kv0
    by_cases hk : k = c
    · rcases List.mem_cons.mp h with h1 | hmem
      · subst h1
        exact ⟨(k, v ++ [a]), by simp [addToBucket, hk], rfl,
          fun x hx => by simp [hx]⟩
      · exact ⟨kv, by simp [addToBucket, hk, hmem], rfl, fun x hx => hx⟩
    · rcases List.mem_cons.mp h with h1 | hmem
      · subst h1
        exact ⟨(k, v), by simp [addToBucket, hk], rfl, fun x hx => hx⟩
      · obtain ⟨kv', hmem', hfst, hsub⟩ := ih hmem
        exact ⟨kv', by simp [addToBucket, hk, hmem'], hfst, hsub⟩

lemma bucketizeGo_preserves (l : List Article) :
    ∀ (m : List (String × List Article)) (kv : String × List Article), kv ∈ m →
      ∃ kv', kv' ∈ bucketizeGo l m ∧ kv'.1 = kv.1 ∧ ∀ x ∈ kv.2, x ∈ kv'.2 := by
  induction l with
  | nil => intro m kv h; exact ⟨kv, h, rfl, fun x hx => hx⟩
  | cons a rest ih =>
    intro m kv h
    obtain ⟨kv1, h1, hf1, hs1⟩ := addToBucket_preserves m (assignCategory a) a h
    obtain ⟨kv2, h2, hf2, hs2⟩ := ih _ kv1 h1
    exact ⟨kv2, h2, hf2.trans hf1, fun x hx => hs2 x (hs1 x hx)⟩

lemma bucketizeGo_mem_self (l : List Article) :
    ∀ (m : List (String × List Article)) (a : Article), a ∈ l →
      ∃ kv, kv ∈ bucketizeGo l m ∧ kv.1 = assignCategory a ∧ a ∈ kv.2 := by
  induction l with
  | nil => intro m a h; simp at h
  | cons b rest ih =>
    intro m a h
    rcases List.mem_cons.mp h with rfl | hmem
    · obtain ⟨kv1, h1, hf1, ha1⟩ := addToBucket_mem_self m (assignCategory a) a
      obtain ⟨kv2, h2, hf2, hs2⟩ := bucketizeGo_preserves rest _ kv1 h1
      exact ⟨kv2, h2, hf2.trans hf1, hs2 a ha1⟩
    · exact ih _ a hmem

lemma addToBucket_keys :
    ∀ (m : List (String × List Article)) (c : String) (a : Article),
      assignCategory a = c →
      (∀ kv ∈ m, ∀ x ∈ kv.2, assignCategory x = kv.1) →
      ∀ kv ∈ addToBucket m c a, ∀ x ∈ kv.2, assignCategory x = kv.1 := by
  intro m
  induction m with
  | nil =>
    intro c a hca _ kv hkv x hx
    simp [addToBucket] at hkv
    subst hkv
    simp at hx
    subst hx
    exact hca
  | cons kv0 rest ih =>
    intro c a hca hm kv hkv x hx
    obtain ⟨k, v⟩ := kv0
    by_cases hk : k = c
    · simp only [addToBucket, if_pos hk] at hkv
      rcases List.mem_cons.mp hkv with h1 | hmem
      · subst h1
        rcases List.mem_append.mp hx with hxv | hxa
        · exact hm (k, v) (List.mem_cons_self _ _) x hxv
        · have hxa' : x = a := by simpa using hxa
          subst hxa'
          rw [hca]
          exact hk.symm
      · exact hm kv (List.mem_cons_of_mem _ hmem) x hx
    · simp only [addToBucket, if_neg hk] at hkv
      rcases List.mem_cons.mp hkv with h1 | hmem
      · subst h1
        exact hm (k, v) (List.mem_cons_self _ _) x hx
      · exact ih c a hca
          (fun kv2 h2 x2 hx2 => hm kv2 (List.mem_cons_of_mem _ h2) x2 hx2) kv hmem x hx

lemma bucketizeGo_keys (l : List Article) :
    ∀ m, (∀ kv ∈ m, ∀ x ∈ kv.2, assignCategory x = kv.1) →
      ∀ kv ∈ bucketizeGo l m, ∀ x ∈ kv.2, assignCategory x = kv.1 := by
  induction l with
  | nil => intro m hm; exact hm
  | cons a rest ih =>
    intro m hm
    exact ih _ (addToBucket_keys m (assignCategory a) a rfl hm)

lemma addToBucket_nonempty :
    ∀ (m : List (String × List Article)) (c : String) (a : Article),
      (∀ kv ∈ m, kv.2 ≠ []) →
      ∀ kv ∈ addToBucket m c a, kv.2 ≠ [] := by
  intro m
  induction m with
  | nil =>
    intro c a _ kv hkv
    simp [addToBucket] at hkv
    subst hkv
    simp
  | cons kv0 rest ih =>
    intro c a hm kv hkv
    obtain ⟨k, v⟩ := kv0
    by_cases hk : k = c
    · simp only [addToBucket, if_pos hk] at hkv
      rcases List.mem_cons.mp hkv with h1 | hmem
      · subst h1; simp
      · exact hm kv (List.mem_cons_of_mem _ hmem)
    · simp only [addToBucket, if_neg hk] at hkv
      rcases List.mem_cons.mp hkv with h1 | hmem
      · subst h1; exact hm (k, v) (List.mem_cons_self _ _)
      · exact ih c a (fun kv2 h2 => hm kv2 (List.mem_cons_of_mem _ h2)) kv hmem

lemma bucketizeGo_nonempty (l : List Article) :
    ∀ m, (∀ kv ∈ m, kv.2 ≠ []) → ∀ kv ∈ bucketizeGo l m, kv.2 ≠ [] := by
  induction l with
  | nil => intro m hm; exact hm
  | cons a rest ih =>
    intro m hm
    exact ih _ (addToBucket_nonempty m _ a hm)

lemma insertByCount_perm (x : String × List Article) :
    ∀ l, List.Perm (insertByCount x l) (x :: l) := by
  intro l
  induction l with
  | nil => simp [insertByCount]
  | cons y ys ih =>
    rw [insertByCount]
    by_cases h : y.2.length ≤ x.2.length
    · rw [if_pos h]
    · rw [if_neg h]
      exact (ih.cons y).trans (List.Perm.swap x y ys)

lemma sortRemaining_perm : ∀ l, List.Perm (sortRemaining l) l := by
  intro l
  induction l with
  | nil => simp [sortRemaining]
  | cons x xs ih =>
    rw [sortRemaining]
    exact (insertByCount_perm x _).trans (ih.cons x)

lemma insertByCount_sorted (x : String × List Article) :
    ∀ l, l.Pairwise (fun p q => q.2.length ≤ p.2.length) →
      (insertByCount x l).Pairwise (fun p q => q.2.length ≤ p.2.length) := by
  intro l
  induction l with
  | nil => intro _; simp [insertByCount]
  | cons y ys ih =>
    intro hs
    rcases List.pairwise_cons.mp hs with ⟨hy, hys⟩
    rw [insertByCount]
    by_cases h : y.2.length ≤ x.2.length
    · rw [if_pos h]
      refine List.pairwise_cons.mpr ⟨?_, hs⟩
      intro z hz
      rcases List.mem_cons.mp hz with rfl | hzys
      · exact h
      · exact le_trans (hy z hzys) h
    · rw [if_neg h]
      refine List.pairwise_cons.mpr ⟨?_, ih hys⟩
      intro z hz
      have hz' := (insertByCount_perm x ys).mem_iff.mp hz
      rcases List.mem_cons.mp hz' with rfl | hzys
      · exact Nat.le_of_lt (Nat.lt_of_not_le h)
      · exact hy z hzys

lemma sortRemaining_sorted : ∀ l : List (String × List Article),
    (sortRemaining l).Pairwise (fun p q => q.2.length ≤ p.2.length) := by
  intro l
  induction l with
  | nil => simp [sortRemaining]
  | cons x xs ih =>
    rw [sortRemaining]
    exact insertByCount_sorted x _ ih

lemma insertByCount_filter (x : String × List Article) (k : Nat) :
    ∀ l, (insertByCount x l).filter (fun kv => decide (kv.2.length = k))
      = (if x.2.length = k
          then x :: l.filter (fun kv => decide (kv.2.length = k))
          else l.filter (fun kv => decide (kv.2.length = k))) := by
  intro l
  induction l with
  | nil =>
    by_cases hx : x.2.length = k <;> simp [insertByCount, hx]
  | cons y ys ih =>
    rw [insertByCount]
    by_cases h : y.2.length ≤ x.2.length
    · rw [if_pos h]
      by_cases hx : x.2.length = k <;> simp [List.filter_cons, hx]
    · rw [if_neg h]
      by_cases hx : x.2.length = k
      · have hy : y.2.length ≠ k := by
          intro hyk
          apply h
          rw [hyk, hx]
        simp only [List.filter_cons, ih]
        simp [hx, hy]
      · simp only [List.filter_cons, ih]
        simp [hx]

lemma sortRemaining_filter (k : Nat) : ∀ l : List (String × List Article),
    (sortRemaining l).filter (fun kv => decide (kv.2.length = k))
      = l.filter (fun kv => decide (kv.2.length = k)) := by
  intro l
  induction l with
  | nil => rfl
  | cons x xs ih =>
    rw [sortRemaining, insertByCount_filter, List.filter_cons]
    by_cases hx : x.2.length = k
    · simp [hx, ih]
    · simp [hx, ih]

lemma filterMap_find_keys :
    ∀ (ps : List String) (cats : List (String × List Article)),
      ((ps.filterMap fun c => cats.find? fun kv => decide (kv.1 = c)).map Prod.fst)
        = ps.filter fun c => decide (c ∈ cats.map Prod.fst) := by
  intro ps cats
  induction ps with
  | nil => rfl
  | cons c cs ih =>
    rw [List.filterMap_cons, List.filter_cons]
    cases hfind : cats.find? (fun kv => decide (kv.1 = c)) with
    | none =>
      have hnot : ¬ (c ∈ cats.map Prod.fst) := by
        rw [List.find?_eq_none] at hfind
        intro hmem
        obtain ⟨kv, hkv, hfst⟩ := List.mem_map.mp hmem
        exact hfind kv hkv (by simp [hfst])
      simp [hnot, ih]
    | some kv =>
      have hk : kv.1 = c := by
        have hp := List.find?_some hfind
        simpa using hp
      have hmem : c ∈ cats.map Prod.fst := by
        rw [← hk]
        exact List.mem_map.mpr ⟨kv, List.mem_of_find?_eq_some hfind, rfl⟩
      simp [hmem, ih, hk]

lemma mem_sortCategoriesStep {kv : String × List Article}
    {cats : List (String × List Article)}
    (h : kv ∈ sortCategoriesStep cats) : kv ∈ cats := by
  simp only [sortCategoriesStep, prioritySeg, remainingSeg] at h
  rcases List.mem_append.mp h with h1 | h2
  · obtain ⟨c, _, hfind⟩ := List.mem_filterMap.mp h1
    exact List.mem_of_find?_eq_some hfind
  · have hmem := (sortRemaining_perm _).mem_iff.mp h2
    exact (List.mem_filter.mp hmem).1

/-- Concrete article with a throwaway long title, empty category and
source. -/
def exArticle (t : String) : Article := ⟨t, "", "", "", "", none, ""⟩

/-- Article whose combined text matches no configured keyword. -/
def plainArticle : Article := exArticle "zzzz qqqq wwww pppp rrrr"

/-- Article whose combined text first matches the geopolitical rule
(index 2) and no earlier rule. -/
def chinaArticle : Article := exArticle "china unveils zzzz qqqq wwww"

/-- C2: the Categorizer evaluates the fixed ordered rule list against
the lower-cased combination of title, category and source; the first
rule with a keyword occurring as a substring wins, a no-match article
receives the default category, and every article lands in a bucket
labelled with its assigned category (never dropped). -/
theorem C2_first_match_categorization :
    (∀ a : Article,
      (∀ rule ∈ category_mappings, ∀ kw ∈ rule.1,
        strContains (combinedOf a) kw = false) →
      assignCategory a = "📄 General Intelligence") ∧
    (∀ (a : Article) (i : Nat) (hi : i < category_mappings.length),
      (category_mappings.get ⟨i, hi⟩).1.any
          (fun kw => strContains (combinedOf a) kw) = true →
      (∀ (j : Nat) (hj : j < i),
        (category_mappings.get ⟨j, Nat.lt_trans hj hi⟩).1.any
          (fun kw => strContains (combinedOf a) kw) = false) →
      assignCategory a = (category_mappings.get ⟨i, hi⟩).2) ∧
    (∀ (articles : List Article) (a : Article), a ∈ articles →
      ∃ kv, kv ∈ bucketize articles ∧ kv.1 = assignCategory a ∧ a ∈ kv.2) := by
  refine ⟨?_, ?_, ?_⟩
  · intro a hnone
    have hfind : category_mappings.find?
        (fun rule => rule.1.any fun kw => strContains (combinedOf a) kw) = none := by
      rw [List.find?_eq_none]
      intro rule hrule hany
      rw [List.any_eq_true] at hany
      obtain ⟨kw, hkw, hc⟩ := hany
      rw [hnone rule hrule kw hkw] at hc
      exact Bool.false_ne_true hc
    simp only [assignCategory, hfind]
  · intro a i hi hmatch hbefore
    have hfind := find?_at_index
      (fun rule => rule.1.any fun kw => strContains (combinedOf a) kw)
      category_mappings i hi hmatch hbefore
    simp only [assignCategory, hfind]
  · intro articles a ha
    exact bucketizeGo_mem_self articles [] a ha

/-- Witness for `C2_first_match_categorization`: a keyword-free article
gets the default category, an article matching only the geopolitical
rule gets that rule's label, and the keyword-free article is placed in a
bucket labelled with its assigned category. -/
theorem C2_first_match_categorization_witness :
    assignCategory plainArticle = "📄 General Intelligence" ∧
    assignCategory chinaArticle = (category_mappings.get ⟨2, by decide⟩).2 ∧
    ∃ kv, kv ∈ bucketize [plainArticle] ∧ kv.1 = assignCategory plainArticle ∧
      plainArticle ∈ kv.2 := by
  refine ⟨?_, ?_, ?_⟩
  · exact C2_first_match_categorization.1 plainArticle (by decide)
  · exact C2_first_match_categorization.2.1 chinaArticle 2 (by decide)
      (by decide) (by decide)
  · exact C2_first_match_categorization.2.2 [plainArticle] plainArticle
      (List.mem_singleton.mpr rfl)

/-- Three articles for the ranker example. -/
def exMilitary : List Article := [exArticle "m1", exArticle "m2", exArticle "m3"]

/-- Ten articles for the ranker example. -/
def exCommercial : List Article :=
  [exArticle "c1", exArticle "c2", exArticle "c3", exArticle "c4", exArticle "c5",
   exArticle "c6", exArticle "c7", exArticle "c8", exArticle "c9", exArticle "c10"]

/-- Three more articles for the ranker example. -/
def exGeopolitical : List Article := [exArticle "g1", exArticle "g2", exArticle "g3"]

/-- C3: the Ranker first emits the priority-list categories that are
present, in priority-list order; the remaining categories follow sorted
by descending article count, the sort being a permutation that keeps
equal-count categories in their first-encountered order; every emitted
category is non-empty.  The final conjunct is the spec's worked example
with counts 3, 10 and 3. -/
theorem C3_priority_then_count_ranking :
    (∀ cats : List (String × List Article),
      (prioritySeg cats).map Prod.fst
        = priority_order.filter fun c => decide (c ∈ cats.map Prod.fst)) ∧
    (∀ cats : List (String × List Article), List.Perm (sortRemaining cats) cats) ∧
    (∀ cats : List (String × List Article),
      (sortRemaining cats).Pairwise fun p q => q.2.length ≤ p.2.length) ∧
    (∀ (cats : List (String × List Article)) (k : Nat),
      (sortRemaining cats).filter (fun kv => decide (kv.2.length = k))
        = cats.filter fun kv => decide (kv.2.length = k)) ∧
    (∀ (articles : List Article) (kv : String × List Article),
      kv ∈ categorize_articles articles → kv.2 ≠ []) ∧
    sortCategoriesStep
        [("🎯 Military & Defense", exMilitary), ("Commercial", exCommercial),
         ("🌍 Geopolitical Intelligence", exGeopolitical)]
      = [("🎯 Military & Defense", exMilitary),
         ("🌍 Geopolitical Intelligence", exGeopolitical),
         ("Commercial", exCommercial)] := by
  refine ⟨?_, sortRemaining_perm, sortRemaining_sorted, ?_, ?_, ?_⟩
  · intro cats
    exact filterMap_find_keys priority_order cats
  · intro cats k
    exact sortRemaining_filter k cats
  · intro articles kv h
    simp only [categorize_articles] at h
    exact bucketizeGo_nonempty articles [] (by simp) kv (mem_sortCategoriesStep h)
  · decide

/-- Witness for `C3_priority_then_count_ranking`: the single bucket
produced by one military article is non-empty. -/
theorem C3_priority_then_count_ranking_witness :
    (("🎯 Military & Defense", [exArticle "military zzz qqq www"]) :
      String × List Article).2 ≠ [] := by
  exact C3_priority_then_count_ranking.2.2.2.2.1 [exArticle "military zzz qqq www"]
    ("🎯 Military & Defense", [exArticle "military zzz qqq www"]) (by decide)

/-- Article whose first-pass category comes entirely from its original
query-plan label. -/
def geoArticle : Article :=
  ⟨"Beijing unveils new unmanned system for export markets", "", "XYZ", "",
    "🇨🇳 China Drones", none, ""⟩

/-- C6 counterexample: re-categorizing after overwriting the category
field with the first-pass result changes the assigned category — the
keyword "china" lived only in the original category label, so the second
pass falls through to the default bucket. -/
theorem C6_counterexample :
    assignCategory geoArticle = "🌍 Geopolitical Intelligence" ∧
    assignCategory { geoArticle with category := assignCategory geoArticle }
      = "📄 General Intelligence" ∧
    ("🌍 Geopolitical Intelligence" : String) ≠ "📄 General Intelligence" := by
  exact ⟨by decide, by decide, by decide⟩

/-- Variant of `geoArticle` differing only in a field the Categorizer
ignores. -/
def geoArticleCopy : Article := { geoArticle with link := "other" }

/-- C6 amended: categorization is a pure deterministic function of the
title, original category label and source alone, and the code never
writes the assigned category back into the article, so any article found
in a bucket of the output re-categorizes exactly to its bucket's label;
only overwriting the category field can change a repeated run. -/
theorem C6_categorization_pure :
    (∀ a b : Article, a.title = b.title → a.category = b.category →
      a.source = b.source → assignCategory a = assignCategory b) ∧
    (∀ (articles : List Article) (kv : String × List Article) (a : Article),
      kv ∈ categorize_articles articles → a ∈ kv.2 →
      assignCategory a = kv.1) := by
  constructor
  · intro a b h1 h2 h3
    simp only [assignCategory, combinedOf, h1, h2, h3]
  · intro articles kv a hkv ha
    simp only [categorize_articles] at hkv
    exact bucketizeGo_keys articles [] (by simp) kv (mem_sortCategoriesStep hkv) a ha

/-- Witness for `C6_categorization_pure` on `geoArticle`. -/
theorem C6_categorization_pure_witness :
    assignCategory geoArticle = assignCategory geoArticleCopy ∧
    assignCategory geoArticle
      = (("🌍 Geopolitical Intelligence", [geoArticle]) : String × List Article).1 := by
  constructor
  · exact C6_categorization_pure.1 geoArticle geoArticleCopy rfl rfl rfl
  · exact C6_categorization_pure.2 [geoArticle]
      ("🌍 Geopolitical Intelligence", [geoArticle]) geoArticle (by decide) (by decide)
